import Mathlib

/-!
Verification of the Black-Scholes options notebook
(`black_scholes_model/black_scholes_model.ipynb`).

The notebook is embedded shallowly over the real numbers: the floating-point
arithmetic of the source is modelled by exact real arithmetic, `scipy`'s
`norm.cdf` / `norm.pdf` by the standard normal cumulative distribution
function (defined as a Lebesgue integral of the density) and its density.

A central fact about the source, referred to throughout: the notebook defines
`d1(S,T,K,r,sigma)` and `d2(S,T,K,r,sigma)` with the time parameter in second
position, but every caller passes arguments positionally as
`d1(S,K,T,r,sigma)`, so at each call site the strike and the time-to-maturity
are transposed.  The embedding reproduces the definitions and the call sites
verbatim, so this transposition is present in the Lean model exactly as in the
source.
-/

open Real MeasureTheory Set
open scoped Classical

/-! ### Distribution utility: standard normal PDF and CDF

`normalPdf` models `scipy.stats.norm.pdf`, `normalCdf` models
`scipy.stats.norm.cdf` (mean 0, standard deviation 1). -/

noncomputable def normalPdf (x : ℝ) : ℝ :=
  (Real.sqrt (2 * π))⁻¹ * Real.exp (-x ^ 2 / 2)

noncomputable def normalCdf (x : ℝ) : ℝ :=
  ∫ t in Set.Iic x, normalPdf t

lemma sqrt_two_pi_pos : 0 < Real.sqrt (2 * π) :=
  Real.sqrt_pos.2 (by positivity)

lemma normalPdf_pos (x : ℝ) : 0 < normalPdf x := by
  have h1 : 0 < (Real.sqrt (2 * π))⁻¹ := by
    have := sqrt_two_pi_pos
    positivity
  exact mul_pos h1 (Real.exp_pos _)

lemma normalPdf_nonneg (x : ℝ) : 0 ≤ normalPdf x := (normalPdf_pos x).le

lemma normalPdf_even (x : ℝ) : normalPdf (-x) = normalPdf x := by
  simp [normalPdf, neg_sq]

lemma normalPdf_eq_gauss (x : ℝ) :
    normalPdf x = (Real.sqrt (2 * π))⁻¹ * Real.exp (-(1/2 : ℝ) * x ^ 2) := by
  rw [normalPdf]
  congr 1
  congr 1
  ring

lemma integrable_normalPdf : Integrable normalPdf := by
  have h : Integrable (fun x : ℝ => Real.exp (-(1/2 : ℝ) * x ^ 2)) :=
    integrable_exp_neg_mul_sq (by norm_num)
  have h2 := h.const_mul ((Real.sqrt (2 * π))⁻¹)
  refine h2.congr ?_
  filter_upwards with x
  rw [normalPdf_eq_gauss]

lemma integral_normalPdf : ∫ x, normalPdf x = 1 := by
  have hfun : normalPdf = fun x : ℝ =>
      (Real.sqrt (2 * π))⁻¹ * Real.exp (-(1/2 : ℝ) * x ^ 2) :=
    funext normalPdf_eq_gauss
  rw [hfun, MeasureTheory.integral_mul_left]
  rw [integral_gaussian]
  have h1 : π / (1/2 : ℝ) = 2 * π := by ring
  rw [h1]
  exact inv_mul_cancel₀ (ne_of_gt sqrt_two_pi_pos)

lemma normalCdf_nonneg (x : ℝ) : 0 ≤ normalCdf x :=
  MeasureTheory.setIntegral_nonneg measurableSet_Iic fun t _ => normalPdf_nonneg t

lemma normalCdf_le_one (x : ℝ) : normalCdf x ≤ 1 := by
  rw [normalCdf, ← integral_normalPdf]
  exact MeasureTheory.setIntegral_le_integral integrable_normalPdf
    (Filter.Eventually.of_forall normalPdf_nonneg)

lemma normalCdf_sub_eq {a b : ℝ} (h : a ≤ b) :
    normalCdf b - normalCdf a = ∫ t in Set.Ioc a b, normalPdf t := by
  have hu : Set.Iic a ∪ Set.Ioc a b = Set.Iic b := Set.Iic_union_Ioc_eq_Iic h
  have hsplit := MeasureTheory.setIntegral_union (μ := volume) (f := normalPdf)
    (s := Set.Iic a) (t := Set.Ioc a b)
    (Set.Iic_disjoint_Ioc (le_refl a)) measurableSet_Ioc
    integrable_normalPdf.integrableOn integrable_normalPdf.integrableOn
  rw [normalCdf, normalCdf, ← hu, hsplit]
  ring

lemma mass_nonneg (a b : ℝ) : 0 ≤ ∫ t in Set.Ioc a b, normalPdf t :=
  MeasureTheory.setIntegral_nonneg measurableSet_Ioc fun t _ => normalPdf_nonneg t

lemma normalCdf_mono {a b : ℝ} (h : a ≤ b) : normalCdf a ≤ normalCdf b := by
  have := normalCdf_sub_eq h
  have := mass_nonneg a b
  linarith

lemma normalCdf_neg (x : ℝ) : normalCdf (-x) = 1 - normalCdf x := by
  have heven : normalPdf = fun t : ℝ => normalPdf (-t) := by
    funext t
    rw [normalPdf_even]
  have h1 : normalCdf (-x) = ∫ t in Set.Ioi x, normalPdf t := by
    rw [normalCdf]
    conv_lhs => rw [heven]
    have := integral_comp_neg_Iic (-x) normalPdf
    rwa [neg_neg] at this
  have h2 : normalCdf x + ∫ t in Set.Ioi x, normalPdf t = 1 := by
    have hc := MeasureTheory.integral_add_compl (μ := volume) (f := normalPdf)
      (s := Set.Iic x) measurableSet_Iic integrable_normalPdf
    rw [Set.compl_Iic] at hc
    rw [normalCdf, hc, integral_normalPdf]
  linarith

/-- Lower bound for the mass of an interval from a pointwise lower bound on the
density. -/
lemma mass_lower {a b c : ℝ} (hab : a ≤ b)
    (h : ∀ t ∈ Set.Ioc a b, c ≤ normalPdf t) :
    c * (b - a) ≤ ∫ t in Set.Ioc a b, normalPdf t := by
  have hconst : IntegrableOn (fun _ : ℝ => c) (Set.Ioc a b) volume := by
    refine integrableOn_const.2 (Or.inr ?_)
    rw [Real.volume_Ioc]
    exact ENNReal.ofReal_lt_top
  have hmono := MeasureTheory.setIntegral_mono_on hconst
    integrable_normalPdf.integrableOn measurableSet_Ioc h
  have hconst_val : ∫ _ in Set.Ioc a b, (c : ℝ) = (b - a) * c := by
    rw [MeasureTheory.setIntegral_const, Real.volume_Ioc,
      ENNReal.toReal_ofReal (by linarith), smul_eq_mul]
  rw [hconst_val] at hmono
  linarith

lemma sqrt_two_pi_le : Real.sqrt (2 * π) ≤ 2.51 := by
  have h1 : (2.51 : ℝ) = Real.sqrt (2.51 ^ 2) := (Real.sqrt_sq (by norm_num)).symm
  rw [h1]
  apply Real.sqrt_le_sqrt
  nlinarith [Real.pi_lt_d2]

lemma exp_neg_half_ge : (0.6 : ℝ) ≤ Real.exp (-(1/2)) := by
  have hmul : Real.exp (-(1/2) : ℝ) * Real.exp (1/2) = 1 := by
    rw [← Real.exp_add]; norm_num
  have hsq : Real.exp (1/2 : ℝ) * Real.exp (1/2) = Real.exp 1 := by
    rw [← Real.exp_add]; norm_num
  have hpos := Real.exp_pos (1/2 : ℝ)
  have hlt : Real.exp (1/2 : ℝ) ≤ 5/3 := by nlinarith [Real.exp_one_lt_d9]
  nlinarith [Real.exp_pos (-(1/2) : ℝ)]

lemma exp_neg_two_ge : (0.13 : ℝ) ≤ Real.exp (-2) := by
  have hmul : Real.exp (-2 : ℝ) * Real.exp 2 = 1 := by
    rw [← Real.exp_add]; norm_num
  have hsq : Real.exp (2 : ℝ) = Real.exp 1 * Real.exp 1 := by
    rw [← Real.exp_add]; norm_num
  have he := Real.exp_one_lt_d9
  have hpos := Real.exp_pos (2 : ℝ)
  nlinarith [Real.exp_pos (-2 : ℝ), Real.exp_one_gt_d9]

lemma normalPdf_ge_of_sq_le_one {t : ℝ} (h : t ^ 2 ≤ 1) : (0.2 : ℝ) ≤ normalPdf t := by
  rw [normalPdf]
  have h1 : Real.exp (-(1/2)) ≤ Real.exp (-t ^ 2 / 2) :=
    Real.exp_le_exp.2 (by linarith)
  have h5 : (2.51 : ℝ)⁻¹ ≤ (Real.sqrt (2 * π))⁻¹ := by
    have h4 := sqrt_two_pi_pos
    have h3 := sqrt_two_pi_le
    rw [inv_le_inv₀ (by norm_num) h4]
    exact h3
  have h6 : (0 : ℝ) < (Real.sqrt (2 * π))⁻¹ := by
    have := sqrt_two_pi_pos; positivity
  calc (0.2 : ℝ) ≤ (2.51)⁻¹ * 0.6 := by norm_num
    _ ≤ (Real.sqrt (2 * π))⁻¹ * Real.exp (-t ^ 2 / 2) :=
        mul_le_mul h5 (le_trans exp_neg_half_ge h1) (by norm_num) h6.le

lemma normalPdf_ge_of_sq_le_four {t : ℝ} (h : t ^ 2 ≤ 4) : (0.05 : ℝ) ≤ normalPdf t := by
  rw [normalPdf]
  have h1 : Real.exp (-2) ≤ Real.exp (-t ^ 2 / 2) :=
    Real.exp_le_exp.2 (by linarith)
  have h5 : (2.51 : ℝ)⁻¹ ≤ (Real.sqrt (2 * π))⁻¹ := by
    have h4 := sqrt_two_pi_pos
    have h3 := sqrt_two_pi_le
    rw [inv_le_inv₀ (by norm_num) h4]
    exact h3
  have h6 : (0 : ℝ) < (Real.sqrt (2 * π))⁻¹ := by
    have := sqrt_two_pi_pos; positivity
  calc (0.05 : ℝ) ≤ (2.51)⁻¹ * 0.13 := by norm_num
    _ ≤ (Real.sqrt (2 * π))⁻¹ * Real.exp (-t ^ 2 / 2) :=
        mul_le_mul h5 (le_trans exp_neg_two_ge h1) (by norm_num) h6.le

/-! ### Pricing engine (embedded verbatim from the notebook)

`d1` and `d2` keep the notebook's parameter order `(S, T, K, r, sigma)`.
Every caller below passes `(S, K, T, r, sigma)` positionally, exactly as the
notebook does, which transposes the strike and the time-to-maturity at each
call site. -/

noncomputable def d1 (S T K r sigma : ℝ) : ℝ :=
  (Real.log (S / K) + (r + sigma ^ 2 / 2) * T) / (sigma * Real.sqrt T)

noncomputable def d2 (S T K r sigma : ℝ) : ℝ :=
  (Real.log (S / K) + (r - sigma ^ 2 / 2) * T) / (sigma * Real.sqrt T)

noncomputable def call_price (S K T r sigma : ℝ) : ℝ :=
  S * normalCdf (d1 S K T r sigma) -
    K * Real.exp (-r * T) * normalCdf (d2 S K T r sigma)

noncomputable def put_price (S K T r sigma : ℝ) : ℝ :=
  K * Real.exp (-r * T) * normalCdf (-d2 S K T r sigma) -
    S * normalCdf (-d1 S K T r sigma)

noncomputable def call_delta (S K T r sigma : ℝ) : ℝ :=
  normalCdf (d1 S K T r sigma)

noncomputable def call_gamma (S K T r sigma : ℝ) : ℝ :=
  normalPdf (d1 S K T r sigma) / (S * sigma * Real.sqrt T)

noncomputable def call_vega (S K T r sigma : ℝ) : ℝ :=
  0.01 * (S * normalPdf (d1 S K T r sigma) * Real.sqrt T)

noncomputable def call_theta (S K T r sigma : ℝ) : ℝ :=
  0.01 * (-(S * normalPdf (d1 S K T r sigma) * sigma) / (2 * Real.sqrt T) -
    r * K * Real.exp (-r * T) * normalCdf (d2 S K T r sigma))

noncomputable def call_rho (S K T r sigma : ℝ) : ℝ :=
  0.01 * (K * T * Real.exp (-r * T) * normalCdf (d2 S K T r sigma))

noncomputable def put_delta (S K T r sigma : ℝ) : ℝ :=
  -normalCdf (-d1 S K T r sigma)

noncomputable def put_gamma (S K T r sigma : ℝ) : ℝ :=
  normalPdf (d1 S K T r sigma) / (S * sigma * Real.sqrt T)

noncomputable def put_vega (S K T r sigma : ℝ) : ℝ :=
  0.01 * (S * normalPdf (d1 S K T r sigma) * Real.sqrt T)

noncomputable def put_theta (S K T r sigma : ℝ) : ℝ :=
  0.01 * (-(S * normalPdf (d1 S K T r sigma) * sigma) / (2 * Real.sqrt T) +
    r * K * Real.exp (-r * T) * normalCdf (-d2 S K T r sigma))

noncomputable def put_rho (S K T r sigma : ℝ) : ℝ :=
  0.01 * (-(K * T * Real.exp (-r * T) * normalCdf (-d2 S K T r sigma)))

/-! ### Python-faithful checked evaluation

The notebook's formulas run under Python semantics, where `x / 0` raises
`ZeroDivisionError` and `math.log` / `math.sqrt` raise `ValueError` on
arguments outside their domain.  The checked functions model those semantics
with an explicit error type.  `domainError` models the explicit `DomainError`
signal that the specification requires; the notebook itself never produces
it. -/

inductive PyError where
  | zeroDivisionError
  | valueError
  | domainError
deriving DecidableEq

noncomputable def pyDiv (a b : ℝ) : Except PyError ℝ :=
  if b = 0 then .error .zeroDivisionError else .ok (a / b)

noncomputable def pyLog (a : ℝ) : Except PyError ℝ :=
  if a ≤ 0 then .error .valueError else .ok (Real.log a)

noncomputable def pySqrt (a : ℝ) : Except PyError ℝ :=
  if a < 0 then .error .valueError else .ok (Real.sqrt a)

noncomputable def d1_checked (S T K r sigma : ℝ) : Except PyError ℝ := do
  let q ← pyDiv S K
  let l ← pyLog q
  let s ← pySqrt T
  pyDiv (l + (r + sigma ^ 2 / 2) * T) (sigma * s)

noncomputable def d2_checked (S T K r sigma : ℝ) : Except PyError ℝ := do
  let q ← pyDiv S K
  let l ← pyLog q
  let s ← pySqrt T
  pyDiv (l + (r - sigma ^ 2 / 2) * T) (sigma * s)

noncomputable def call_price_checked (S K T r sigma : ℝ) : Except PyError ℝ := do
  let a ← d1_checked S K T r sigma
  let b ← d2_checked S K T r sigma
  pure (S * normalCdf a - K * Real.exp (-r * T) * normalCdf b)

noncomputable def put_price_checked (S K T r sigma : ℝ) : Except PyError ℝ := do
  let a ← d1_checked S K T r sigma
  let b ← d2_checked S K T r sigma
  pure (K * Real.exp (-r * T) * normalCdf (-b) - S * normalCdf (-a))

/-! ### Implied volatility solver

The notebook's loop

    sigma = 0.001
    while sigma < 1:
        ...
        sigma += 0.001

is modelled in exact real arithmetic: after `k - 1` increments the scan
variable holds exactly `k / 1000`, so the loop state is tracked by the index
`k`, starting at `k = 1`, and the loop guard `sigma < 1` is `(k : ℝ) / 1000 < 1`.
The result type records the two distinct failure strings the notebook
returns from its call and put branches. -/

inductive IVResult where
  | found (sigma : ℝ)
  | notFound (msg : String)

noncomputable def ivScan (Option_Price : ℝ) (model : ℝ → ℝ) (k : ℕ) : Option ℝ :=
  if h : (k : ℝ) / 1000 < 1 then
    if Option_Price - model ((k : ℝ) / 1000) < 0.001 then some ((k : ℝ) / 1000)
    else ivScan Option_Price model (k + 1)
  else none
termination_by 1000 - k
decreasing_by
  have hk : k < 1000 := by
    by_contra hge
    push_neg at hge
    have h1 : (1000 : ℝ) ≤ (k : ℝ) := by exact_mod_cast hge
    linarith
  omega

/-- The notebook's `implied_volatility(Option_Price, S, K, T, r)` reads the
option-type selector `option` from the enclosing interpreter state rather
than from a parameter; the enclosing state is passed here as the final
argument. -/
noncomputable def implied_volatility (Option_Price S K T r : ℝ) (option : Char) :
    IVResult :=
  if option = 'C' then
    match ivScan Option_Price
        (fun sigma => S * normalCdf (d1 S K T r sigma) -
          K * Real.exp (-r * T) * normalCdf (d2 S K T r sigma)) 1 with
    | some sigma => .found sigma
    | none => .notFound "It could not find the right volatility of the call option."
  else
    match ivScan Option_Price
        (fun sigma => K * Real.exp (-r * T) - S + call_price S K T r sigma) 1 with
    | some sigma => .found sigma
    | none => .notFound "It could not find the right volatility of the put option."

/-- The model price scanned against in each branch of `implied_volatility`. -/
noncomputable def ivModel (option : Char) (S K T r sigma : ℝ) : ℝ :=
  if option = 'C' then
    S * normalCdf (d1 S K T r sigma) -
      K * Real.exp (-r * T) * normalCdf (d2 S K T r sigma)
  else K * Real.exp (-r * T) - S + call_price S K T r sigma

/-- The price the pricing engine produces for a given option type, used to
state the round-trip property. -/
noncomputable def enginePrice (option : Char) (S K T r sigma : ℝ) : ℝ :=
  if option = 'C' then call_price S K T r sigma else put_price S K T r sigma

/-! ### Spec-side formulas

Modelled from the spec: `d1(S,K,T,r,σ) = (ln(S/K) + (r + σ²/2)·T)/(σ·√T)`,
`d2 = d1 − σ·√T`, `call price = S·Φ(d1) − K·exp(-r·T)·Φ(d2)`.  These follow
the specification's words (strike under the logarithm, time under the square
root) and are used only to compare the source functions against the
specification. -/

noncomputable def d1_spec_formula (S K T r sigma : ℝ) : ℝ :=
  (Real.log (S / K) + (r + sigma ^ 2 / 2) * T) / (sigma * Real.sqrt T)

noncomputable def d2_spec_formula (S K T r sigma : ℝ) : ℝ :=
  d1_spec_formula S K T r sigma - sigma * Real.sqrt T

noncomputable def call_price_spec_formula (S K T r sigma : ℝ) : ℝ :=
  S * normalCdf (d1_spec_formula S K T r sigma) -
    K * Real.exp (-r * T) * normalCdf (d2_spec_formula S K T r sigma)

/-! ### Scan lemmas -/

lemma ivScan_eq (p : ℝ) (model : ℝ → ℝ) (k : ℕ) :
    ivScan p model k =
      if (k : ℝ) / 1000 < 1 then
        if p - model ((k : ℝ) / 1000) < 0.001 then some ((k : ℝ) / 1000)
        else ivScan p model (k + 1)
      else none := by
  rw [ivScan, dite_eq_ite]

/-- The scan from index `k` returns the first grid index at or after `k`
satisfying the stopping test, or `none` when no index up to `999` does. -/
lemma ivScan_cases (p : ℝ) (model : ℝ → ℝ) :
    ∀ n k : ℕ, 1000 - k ≤ n →
      (∃ j : ℕ, k ≤ j ∧ j ≤ 999 ∧ p - model ((j : ℝ) / 1000) < 0.001 ∧
        (∀ i : ℕ, k ≤ i → i < j → ¬(p - model ((i : ℝ) / 1000) < 0.001)) ∧
        ivScan p model k = some ((j : ℝ) / 1000)) ∨
      ((∀ j : ℕ, k ≤ j → j ≤ 999 → ¬(p - model ((j : ℝ) / 1000) < 0.001)) ∧
        ivScan p model k = none) := by
  intro n
  induction n with
  | zero =>
    intro k hk
    right
    have hk1000 : 1000 ≤ k := by omega
    have hguard : ¬((k : ℝ) / 1000 < 1) := by
      push_neg
      have h1 : (1000 : ℝ) ≤ (k : ℝ) := by exact_mod_cast hk1000
      linarith
    refine ⟨fun j hj hj999 _ => by omega, ?_⟩
    rw [ivScan_eq, if_neg hguard]
  | succ n ih =>
    intro k hk
    by_cases hguard : (k : ℝ) / 1000 < 1
    · have hk999 : k ≤ 999 := by
        have h1 : (k : ℝ) < 1000 := by linarith
        have h2 : k < 1000 := by exact_mod_cast h1
        omega
      by_cases hp : p - model ((k : ℝ) / 1000) < 0.001
      · left
        refine ⟨k, le_refl k, hk999, hp, fun i hki hik => absurd hki (by omega), ?_⟩
        rw [ivScan_eq, if_pos hguard, if_pos hp]
      · have hstep : ivScan p model k = ivScan p model (k + 1) := by
          rw [ivScan_eq, if_pos hguard, if_neg hp]
        have hk' : 1000 - (k + 1) ≤ n := by omega
        rcases ih (k + 1) hk' with ⟨j, hj1, hj2, hj3, hj4, hj5⟩ | ⟨hall, hnone⟩
        · left
          refine ⟨j, by omega, hj2, hj3, ?_, by rw [hstep]; exact hj5⟩
          intro i hki hij
          rcases Nat.eq_or_lt_of_le hki with heq | hlt
          · rw [← heq]; exact hp
          · exact hj4 i (by omega) hij
        · right
          refine ⟨?_, by rw [hstep]; exact hnone⟩
          intro j hkj hj999
          rcases Nat.eq_or_lt_of_le hkj with heq | hlt
          · rw [← heq]; exact hp
          · exact hall j (by omega) hj999
    · right
      have hk1000 : 1000 ≤ k := by
        by_contra hlt
        push_neg at hlt
        apply hguard
        have h1 : (k : ℝ) < 1000 := by exact_mod_cast hlt
        linarith
      refine ⟨fun j hj hj999 _ => by omega, ?_⟩
      rw [ivScan_eq, if_neg hguard]

lemma ivScan_none_of_all_fail (p : ℝ) (model : ℝ → ℝ)
    (h : ∀ k : ℕ, 1 ≤ k → k ≤ 999 → ¬(p - model ((k : ℝ) / 1000) < 0.001)) :
    ivScan p model 1 = none := by
  rcases ivScan_cases p model 999 1 (by omega) with ⟨j, hj1, hj2, hj3, _, _⟩ | ⟨_, hnone⟩
  · exact absurd hj3 (h j hj1 hj2)
  · exact hnone

lemma ivScan_found_le (p : ℝ) (model : ℝ → ℝ) (k0 : ℕ) (h1 : 1 ≤ k0) (h2 : k0 ≤ 999)
    (hpred : p - model ((k0 : ℝ) / 1000) < 0.001) :
    ∃ j : ℕ, 1 ≤ j ∧ j ≤ k0 ∧ ivScan p model 1 = some ((j : ℝ) / 1000) := by
  rcases ivScan_cases p model 999 1 (by omega) with ⟨j, hj1, hj2, _, hj4, hj5⟩ | ⟨hall, _⟩
  · refine ⟨j, hj1, ?_, hj5⟩
    by_contra hgt
    push_neg at hgt
    exact hj4 k0 h1 hgt hpred
  · exact absurd hpred (hall k0 h1 h2)

/-! ### Bridging lemmas between `implied_volatility` and `ivModel` -/

lemma ivModel_call (S K T r : ℝ) :
    (fun sigma => S * normalCdf (d1 S K T r sigma) -
      K * Real.exp (-r * T) * normalCdf (d2 S K T r sigma)) = ivModel 'C' S K T r := by
  funext sigma
  rw [ivModel, if_pos rfl]

lemma ivModel_other {option : Char} (h : ¬(option = 'C')) (S K T r : ℝ) :
    (fun sigma => K * Real.exp (-r * T) - S + call_price S K T r sigma) =
      ivModel option S K T r := by
  funext sigma
  rw [ivModel, if_neg h]

lemma implied_volatility_found (p S K T r σ : ℝ) (option : Char)
    (h : ivScan p (ivModel option S K T r) 1 = some σ) :
    implied_volatility p S K T r option = IVResult.found σ := by
  by_cases hc : option = 'C'
  · subst hc
    unfold implied_volatility
    rw [if_pos rfl, ivModel_call, h]
  · unfold implied_volatility
    rw [if_neg hc, ivModel_other hc, h]

lemma implied_volatility_none (p S K T r : ℝ) (option : Char)
    (h : ivScan p (ivModel option S K T r) 1 = none) :
    implied_volatility p S K T r option = IVResult.notFound
      (if option = 'C' then "It could not find the right volatility of the call option."
       else "It could not find the right volatility of the put option.") := by
  by_cases hc : option = 'C'
  · subst hc
    unfold implied_volatility
    rw [if_pos rfl, ivModel_call, h, if_pos rfl]
  · unfold implied_volatility
    rw [if_neg hc, ivModel_other hc, h, if_neg hc]

/-! ### Put-call parity core -/

lemma call_sub_put (S K T r sigma : ℝ) :
    call_price S K T r sigma - put_price S K T r sigma =
      S - K * Real.exp (-r * T) := by
  rw [call_price, put_price, normalCdf_neg, normalCdf_neg]
  ring

/-! ### Claim theorems -/

/-- C4: put-call parity holds for the notebook's pricing functions: for all
inputs (in particular all S > 0, K > 0, T > 0, r, σ > 0),
`call_price − put_price = S − K·exp(−r·T)`.  The strike/maturity
transposition inside `d1`/`d2` does not break this identity because both
prices share the same transposed `d1` and `d2` values. -/
theorem put_call_parity (S K T r sigma : ℝ) :
    call_price S K T r sigma - put_price S K T r sigma =
      S - K * Real.exp (-r * T) :=
  call_sub_put S K T r sigma

/-- C7: `call_gamma` and `put_gamma` are exactly the same formula, as are
`call_vega` and `put_vega`, for all inputs. -/
theorem gamma_vega_call_put_equal (S K T r sigma : ℝ) :
    call_gamma S K T r sigma = put_gamma S K T r sigma ∧
      call_vega S K T r sigma = put_vega S K T r sigma :=
  ⟨rfl, rfl⟩

/-- C9: the put delta equals the call delta minus one for all inputs:
`put_delta = −Φ(−d1) = Φ(d1) − 1 = call_delta − 1`. -/
theorem put_delta_eq_call_delta_sub_one (S K T r sigma : ℝ) :
    put_delta S K T r sigma = call_delta S K T r sigma - 1 := by
  rw [put_delta, call_delta, normalCdf_neg]
  ring

/-- C10: the expression `K·exp(−r·T) − S + call_price(S,K,T,r,σ)` used as the
model price in the put branch of `implied_volatility` equals
`put_price(S,K,T,r,σ)` for all inputs (in particular all S > 0, K > 0, T > 0,
r, σ > 0), so the put branch searches against the put pricing formula. -/
theorem put_branch_model_eq_put_price (S K T r sigma : ℝ) :
    K * Real.exp (-r * T) - S + call_price S K T r sigma =
      put_price S K T r sigma := by
  have h := call_sub_put S K T r sigma
  linarith

/-- C2: for every observed price, parameters, and enclosing option flag,
`implied_volatility` scans σ = 1/1000, 2/1000, … with fixed step 1/1000,
returns the first grid σ at which `observedPrice − modelPrice(σ) < 0.001`
(a one-sided test), and reports a not-found result once σ reaches 1.0
without the test having been satisfied. -/
theorem implied_volatility_linear_scan (Option_Price S K T r : ℝ) (option : Char) :
    (∃ k : ℕ, 1 ≤ k ∧ k ≤ 999 ∧
        Option_Price - ivModel option S K T r ((k : ℝ) / 1000) < 0.001 ∧
        (∀ j : ℕ, 1 ≤ j → j < k →
          ¬(Option_Price - ivModel option S K T r ((j : ℝ) / 1000) < 0.001)) ∧
        implied_volatility Option_Price S K T r option =
          IVResult.found ((k : ℝ) / 1000)) ∨
      ((∀ k : ℕ, 1 ≤ k → k ≤ 999 →
          ¬(Option_Price - ivModel option S K T r ((k : ℝ) / 1000) < 0.001)) ∧
        implied_volatility Option_Price S K T r option =
          IVResult.notFound (if option = 'C'
            then "It could not find the right volatility of the call option."
            else "It could not find the right volatility of the put option.")) := by
  rcases ivScan_cases Option_Price (ivModel option S K T r) 999 1 (by omega) with
    ⟨j, hj1, hj2, hj3, hj4, hj5⟩ | ⟨hall, hnone⟩
  · exact Or.inl ⟨j, hj1, hj2, hj3, hj4,
      implied_volatility_found Option_Price S K T r _ option hj5⟩
  · exact Or.inr ⟨hall, implied_volatility_none Option_Price S K T r option hnone⟩

/-- C3: at `T = 0` and at `σ = 0` the notebook's pricing formulas fail with
Python's `ZeroDivisionError`, not with the explicit `DomainError` signal the
specification requires, and at `σ = −1 < 0` they do not fail at all. -/
theorem pricing_fails_with_zeroDivision_not_domainError :
    call_price_checked 1 1 0 0 1 = Except.error PyError.zeroDivisionError ∧
      call_price_checked 1 1 1 0 0 = Except.error PyError.zeroDivisionError ∧
      put_price_checked 1 1 0 0 1 = Except.error PyError.zeroDivisionError ∧
      put_price_checked 1 1 1 0 0 = Except.error PyError.zeroDivisionError ∧
      ∃ y : ℝ, call_price_checked 1 1 1 0 (-1) = Except.ok y := by
  refine ⟨?_, ?_, ?_, ?_,
    ⟨normalCdf (-(1/2)) - normalCdf (1/2), ?_⟩⟩ <;>
    norm_num [call_price_checked, put_price_checked, d1_checked, d2_checked,
      pyDiv, pyLog, pySqrt, Real.sqrt_one, Real.exp_zero, Except.bind, Bind.bind,
      pure, Except.pure]

/-- C8: two runs of `implied_volatility` with identical explicit arguments
(observed price 2, S = 1, K = 1, T = 1, r = 0) but different enclosing
option-type state return different results, so the solver's result is not a
function of its explicit arguments alone: the option type is read from
enclosing state, not passed as a parameter. -/
theorem implied_volatility_depends_on_enclosing_state :
    implied_volatility 2 1 1 1 0 'C' ≠ implied_volatility 2 1 1 1 0 'P' := by
  have hE : Real.exp (-(0 : ℝ) * 1) = 1 := by norm_num
  have hC : ∀ x : ℝ, ivModel 'C' 1 1 1 0 x ≤ 1 := by
    intro x
    rw [ivModel, if_pos rfl, hE]
    have h1 := normalCdf_le_one (d1 1 1 1 0 x)
    have h2 := normalCdf_nonneg (d2 1 1 1 0 x)
    linarith
  have hP : ∀ x : ℝ, ivModel 'P' 1 1 1 0 x ≤ 1 := by
    intro x
    rw [ivModel, if_neg (by decide), call_price, hE]
    have h1 := normalCdf_le_one (d1 1 1 1 0 x)
    have h2 := normalCdf_nonneg (d2 1 1 1 0 x)
    linarith
  have hfailC : ∀ k : ℕ, 1 ≤ k → k ≤ 999 →
      ¬((2 : ℝ) - ivModel 'C' 1 1 1 0 ((k : ℝ) / 1000) < 0.001) := by
    intro k _ _ hlt
    have := hC ((k : ℝ) / 1000)
    linarith
  have hfailP : ∀ k : ℕ, 1 ≤ k → k ≤ 999 →
      ¬((2 : ℝ) - ivModel 'P' 1 1 1 0 ((k : ℝ) / 1000) < 0.001) := by
    intro k _ _ hlt
    have := hP ((k : ℝ) / 1000)
    linarith
  have e1 := implied_volatility_none 2 1 1 1 0 'C'
    (ivScan_none_of_all_fail _ _ hfailC)
  have e2 := implied_volatility_none 2 1 1 1 0 'P'
    (ivScan_none_of_all_fail _ _ hfailP)
  rw [e1, e2, if_pos rfl, if_neg (by decide)]
  intro hEq
  injection hEq with hmsg
  exact absurd hmsg (by decide)

/-- C6 (counterexample): at S = 10, K = 1/10000, T = 1, r = 0, option flag
`'C'`, and the grid volatility σ₀ = 1/2 = 500/1000, feeding
`call_price(S,K,T,r,σ₀)` back into `implied_volatility` returns
`found (1/1000)`: the one-sided stopping test fires at the very first grid
point, and 1/1000 is not within 10⁻³ of σ₀ = 1/2. -/
theorem roundtrip_tolerance_fails :
    implied_volatility (call_price 10 (1/10000) 1 0 (1/2)) 10 (1/10000) 1 0 'C' =
      IVResult.found (1/1000) ∧ ¬(|(1/1000 : ℝ) - 1/2| ≤ 0.001) := by
  constructor
  · have hsqrt : Real.sqrt (1/10000) = 1/100 := by
      rw [show (1/10000 : ℝ) = (1/100) ^ 2 by norm_num, Real.sqrt_sq (by norm_num)]
    have hlog1 : (1 : ℝ) ≤ Real.log 10 := by
      rw [Real.le_log_iff_exp_le (by norm_num)]
      nlinarith [Real.exp_one_lt_d9]
    have hge : d1 10 (1/10000) 1 0 (1/2) ≤ d1 10 (1/10000) 1 0 (1/1000) := by
      rw [d1, d1, hsqrt]
      rw [show (10 : ℝ) / 1 = 10 by norm_num]
      rw [div_le_div_iff₀ (by norm_num) (by norm_num)]
      nlinarith [hlog1]
    have hmono := normalCdf_mono hge
    have hb1 := normalCdf_le_one (d2 10 (1/10000) 1 0 (1/1000))
    have hb2 := normalCdf_nonneg (d2 10 (1/10000) 1 0 (1/2))
    have hE : Real.exp (-(0 : ℝ) * 1) = 1 := by norm_num
    have hpred : call_price 10 (1/10000) 1 0 (1/2) -
        ivModel 'C' 10 (1/10000) 1 0 (((1 : ℕ) : ℝ) / 1000) < 0.001 := by
      rw [ivModel, if_pos rfl, call_price, Nat.cast_one, hE]
      rw [show ((1 : ℝ) / 1000) = (1/1000 : ℝ) by norm_num]
      linarith
    have hscan : ivScan (call_price 10 (1/10000) 1 0 (1/2))
        (ivModel 'C' 10 (1/10000) 1 0) 1 = some (((1 : ℕ) : ℝ) / 1000) := by
      rw [ivScan_eq]
      rw [if_pos (by push_cast; norm_num), if_pos hpred]
    have hfound := implied_volatility_found (call_price 10 (1/10000) 1 0 (1/2))
      10 (1/10000) 1 0 (((1 : ℕ) : ℝ) / 1000) 'C' hscan
    rw [hfound, Nat.cast_one]
  · rw [show (1/1000 : ℝ) - 1/2 = -(499/1000) by norm_num, abs_neg,
      abs_of_nonneg (by norm_num)]
    norm_num

/-- C6 (amended): feeding the price the pricing engine produces at a grid
volatility σ₀ = k₀/1000 (1 ≤ k₀ ≤ 999) back into `implied_volatility` with
the same parameters and enclosing option flag always returns `found` at some
grid index k ≤ k₀ — never a not-found result — but the returned volatility
need not be within 10⁻³ of σ₀, because the one-sided stopping test can fire
early. -/
theorem roundtrip_returns_found (S K T r : ℝ) (option : Char) (k0 : ℕ)
    (h1 : 1 ≤ k0) (h2 : k0 ≤ 999) :
    ∃ k : ℕ, 1 ≤ k ∧ k ≤ k0 ∧
      implied_volatility (enginePrice option S K T r ((k0 : ℝ) / 1000)) S K T r
        option = IVResult.found ((k : ℝ) / 1000) := by
  have hpred : enginePrice option S K T r ((k0 : ℝ) / 1000) -
      ivModel option S K T r ((k0 : ℝ) / 1000) < 0.001 := by
    by_cases hc : option = 'C'
    · rw [enginePrice, if_pos hc, ivModel, if_pos hc, call_price, sub_self]
      norm_num
    · rw [enginePrice, if_neg hc, ivModel, if_neg hc]
      have h := call_sub_put S K T r ((k0 : ℝ) / 1000)
      linarith
  obtain ⟨j, hj1, hj2, hj3⟩ := ivScan_found_le _ _ k0 h1 h2 hpred
  exact ⟨j, hj1, hj2, implied_volatility_found _ _ _ _ _ _ _ hj3⟩

/-- Witness for the amended round-trip theorem, at S = K = T = 1, r = 0,
enclosing option flag `'P'`, grid index k₀ = 500. -/
theorem roundtrip_returns_found_witness :
    (1 ≤ 500 ∧ 500 ≤ 999) ∧
      ∃ k : ℕ, 1 ≤ k ∧ k ≤ 500 ∧
        implied_volatility (enginePrice 'P' 1 1 1 0 (((500 : ℕ) : ℝ) / 1000))
          1 1 1 0 'P' = IVResult.found ((k : ℝ) / 1000) :=
  ⟨⟨by norm_num, by norm_num⟩,
    roundtrip_returns_found 1 1 1 0 'P' 500 (by norm_num) (by norm_num)⟩

/-- C1 (code deviates from the spec formulas): at S = 100, K = 100,
T = 1/100, r = 0, σ = 1 the notebook's `call_price` differs from the
specification formula `S·Φ(d1) − K·exp(−r·T)·Φ(d2)` with the spec's `d1`,
`d2`, because the notebook's call sites transpose the strike and the
time-to-maturity when computing `d1` and `d2`. -/
theorem call_price_differs_from_spec_formula :
    call_price 100 100 (1/100) 0 1 ≠ call_price_spec_formula 100 100 (1/100) 0 1 := by
  apply ne_of_gt
  have hsqrt100 : Real.sqrt 100 = 10 := by
    rw [show (100 : ℝ) = 10 ^ 2 by norm_num, Real.sqrt_sq (by norm_num)]
  have hsqrt001 : Real.sqrt (1/100) = 1/10 := by
    rw [show (1/100 : ℝ) = (1/10) ^ 2 by norm_num, Real.sqrt_sq (by norm_num)]
  have hlog4 : Real.log 10000 = 4 * Real.log 10 := by
    rw [show (10000 : ℝ) = 10 ^ (4 : ℕ) by norm_num, Real.log_pow]
    push_cast
    ring
  have hlogL : 0 ≤ Real.log 10 := Real.log_nonneg (by norm_num)
  have hlogU : Real.log 10 ≤ 9 := by
    have h := Real.log_le_sub_one_of_pos (show (0 : ℝ) < 10 by norm_num)
    linarith
  have hA : d1 100 100 (1/100) 0 1 = (Real.log 10000 + 50) / 10 := by
    rw [d1, hsqrt100]
    norm_num
  have hB : d2 100 100 (1/100) 0 1 = (Real.log 10000 - 50) / 10 := by
    rw [d2, hsqrt100]
    norm_num
    ring
  have ha : d1_spec_formula 100 100 (1/100) 0 1 = 1/20 := by
    rw [d1_spec_formula, hsqrt001]
    norm_num [Real.log_one]
  have hb : d2_spec_formula 100 100 (1/100) 0 1 = -(1/20) := by
    rw [d2_spec_formula, ha, hsqrt001]
    norm_num
  have hA2 : (2 : ℝ) ≤ (Real.log 10000 + 50) / 10 := by
    rw [hlog4]; linarith
  have hB2 : (Real.log 10000 - 50) / 10 ≤ -(1/20) := by
    rw [hlog4]; linarith
  have hBA : (Real.log 10000 - 50) / 10 ≤ (Real.log 10000 + 50) / 10 := by
    rw [hlog4]; linarith
  have hmAB := normalCdf_sub_eq hBA
  have hm1 := normalCdf_sub_eq (show (-(1/20) : ℝ) ≤ 1/20 by norm_num)
  have hdisj : Disjoint (Set.Ioc (-(1/20) : ℝ) (1/20)) (Set.Ioc (1 : ℝ) 2) := by
    rw [Set.disjoint_left]
    intro t ht1 ht2
    rw [Set.mem_Ioc] at ht1 ht2
    linarith [ht1.2, ht2.1]
  have hunion := MeasureTheory.setIntegral_union (μ := volume) (f := normalPdf)
    (s := Set.Ioc (-(1/20) : ℝ) (1/20)) (t := Set.Ioc (1 : ℝ) 2) hdisj
    measurableSet_Ioc
    integrable_normalPdf.integrableOn integrable_normalPdf.integrableOn
  have hsub : Set.Ioc (-(1/20) : ℝ) (1/20) ∪ Set.Ioc (1 : ℝ) 2 ⊆
      Set.Ioc ((Real.log 10000 - 50) / 10) ((Real.log 10000 + 50) / 10) := by
    intro t ht
    rw [Set.mem_union, Set.mem_Ioc, Set.mem_Ioc] at ht
    rw [Set.mem_Ioc]
    rcases ht with h | h
    · exact ⟨by linarith [h.1], by linarith [h.2]⟩
    · exact ⟨by linarith [h.1], by linarith [h.2]⟩
  have hmono := MeasureTheory.setIntegral_mono_set (μ := volume)
    integrable_normalPdf.integrableOn
    (Filter.Eventually.of_forall normalPdf_nonneg)
    (HasSubset.Subset.eventuallyLE hsub)
  have hm2 : (0.05 : ℝ) * (2 - 1) ≤ ∫ t in Set.Ioc (1 : ℝ) 2, normalPdf t := by
    apply mass_lower (by norm_num)
    intro t ht
    rw [Set.mem_Ioc] at ht
    apply normalPdf_ge_of_sq_le_four
    nlinarith [ht.1, ht.2]
  have hE : Real.exp (-(0 : ℝ) * (1/100)) = 1 := by norm_num
  rw [call_price, call_price_spec_formula, hA, hB, ha, hb, hE]
  linarith [hmAB, hm1, hunion, hmono, hm2]

/-- C5 (counterexample): with S = 10001/10000, K = 1/10000, T = 1, r = 0 the
notebook's `call_price` is strictly smaller at σ = 1/10 than at σ = 1/100,
so `call_price` is not strictly increasing in σ on (0, ∞); the transposed
`d1`/`d2` arguments break the monotonicity the specification asserts. -/
theorem call_price_not_increasing_in_sigma :
    (1/100 : ℝ) < 1/10 ∧
      call_price (10001/10000) (1/10000) 1 0 (1/10) <
        call_price (10001/10000) (1/10000) 1 0 (1/100) := by
  refine ⟨by norm_num, ?_⟩
  have hsqrt : Real.sqrt (1/10000) = 1/100 := by
    rw [show (1/10000 : ℝ) = (1/100) ^ 2 by norm_num, Real.sqrt_sq (by norm_num)]
  have hup : Real.log (10001/10000) ≤ 1/10000 := by
    have h := Real.log_le_sub_one_of_pos (show (0 : ℝ) < 10001/10000 by norm_num)
    linarith
  have hlo : (1/10001 : ℝ) ≤ Real.log (10001/10000) := by
    have h := Real.log_le_sub_one_of_pos (show (0 : ℝ) < 10000/10001 by norm_num)
    have hinv : Real.log (10001/10000) = -Real.log (10000/10001) := by
      rw [show (10001/10000 : ℝ) = (10000/10001)⁻¹ by norm_num, Real.log_inv]
    rw [hinv]
    linarith
  have hX1 : d1 (10001/10000) (1/10000) 1 0 (1/100) =
      10000 * Real.log (10001/10000) + 1/20000 := by
    rw [d1, hsqrt]
    rw [show (10001/10000 : ℝ) / 1 = 10001/10000 by norm_num]
    field_simp
    ring
  have hX2 : d1 (10001/10000) (1/10000) 1 0 (1/10) =
      1000 * Real.log (10001/10000) + 1/2000 := by
    rw [d1, hsqrt]
    rw [show (10001/10000 : ℝ) / 1 = 10001/10000 by norm_num]
    field_simp
    ring
  have hX1lb : (0.99 : ℝ) ≤ 10000 * Real.log (10001/10000) + 1/20000 := by
    linarith
  have hX2ub : 1000 * Real.log (10001/10000) + 1/2000 ≤ (0.11 : ℝ) := by
    linarith
  have hX21 : 1000 * Real.log (10001/10000) + 1/2000 ≤
      10000 * Real.log (10001/10000) + 1/20000 := by
    linarith
  have hmX := normalCdf_sub_eq hX21
  have hsub2 : Set.Ioc (0.11 : ℝ) 0.99 ⊆
      Set.Ioc (1000 * Real.log (10001/10000) + 1/2000)
        (10000 * Real.log (10001/10000) + 1/20000) := by
    intro t ht
    rw [Set.mem_Ioc] at ht
    rw [Set.mem_Ioc]
    exact ⟨lt_of_le_of_lt hX2ub ht.1, le_trans ht.2 hX1lb⟩
  have hmono2 := MeasureTheory.setIntegral_mono_set (μ := volume)
    integrable_normalPdf.integrableOn
    (Filter.Eventually.of_forall normalPdf_nonneg)
    (HasSubset.Subset.eventuallyLE hsub2)
  have hmlb : (0.2 : ℝ) * (0.99 - 0.11) ≤
      ∫ t in Set.Ioc (0.11 : ℝ) 0.99, normalPdf t := by
    apply mass_lower (by norm_num)
    intro t ht
    rw [Set.mem_Ioc] at ht
    apply normalPdf_ge_of_sq_le_one
    nlinarith [ht.1, ht.2]
  have hb1 := normalCdf_le_one (d2 (10001/10000) (1/10000) 1 0 (1/100))
  have hb2 := normalCdf_nonneg (d2 (10001/10000) (1/10000) 1 0 (1/10))
  have hE : Real.exp (-(0 : ℝ) * 1) = 1 := by norm_num
  rw [call_price, call_price, hX1, hX2, hE]
  linarith [hmX, hmono2, hmlb]
